import Mathlib

/-!
Verification of the forme-groups container/value/schema/Merkle core.

Shallow embedding of:
  * `app/src/base/container.py` (BaseContainer, `_contains_sub_container`,
    `_base_container_converter`, `_base_container_type_converter`, `_unpack`,
    `_hash`, `_verify_item`);
  * `app/src/base.py` and `app/src/converters.py` (draft BaseValue and
    `_convert_container_to_value`);
  * `app/src/base/schema.py` (BaseSchema `_verify_schema` pipeline);
  * `src/groups/base/types.py` (BaseTypeInterface `_contains`,
    `BaseTypes_._get_type`, the built-in alias tables);
  * `src/groups/utils/crypto.py` (Leaves, MerkleTree).

Python scalars are modelled by `UnitValue` (floats carried as their literal
text, since no claim computes with them), Python objects by the mutual
`PyElem`/`PyContainer` inductives, and SHA-256 digests by the free algebra
`Hash` (an idealized collision-free digest; the concrete `sha256.py` module
is not part of the sources).
-/

/-- The five primitive scalar representations (int, float, bool, str, bytes).
Floats and bytes are carried as uninterpreted literal text: the embedded code
only stores, compares and hashes scalars, never computes with them. -/
inductive UnitValue where
  | vInt (n : Int)
  | vFloat (r : String)
  | vBool (b : Bool)
  | vStr (s : String)
  | vBytes (s : String)
deriving DecidableEq

mutual
/-- A Python object reaching the container/value constructors: a bare scalar,
an already-wrapped `BaseValue`, or a native collection. -/
inductive PyElem where
  | scalar (v : UnitValue)
  | value (v : UnitValue)
  | container (c : PyContainer)

/-- A native Python collection.  `dict` keys are scalars (Python dict keys are
hashable; all repository code and tests use scalar keys); pair order models
insertion order. -/
inductive PyContainer where
  | list (xs : List PyElem)
  | tupl (xs : List PyElem)
  | pset (xs : List PyElem)
  | fset (xs : List PyElem)
  | dict (ps : List (UnitValue × PyElem))
end

/-- The five container kinds (the Python types list/tuple/set/frozenset/dict). -/
inductive CKind where
  | list | tupl | set | fset | dict
deriving DecidableEq

/-- `isinstance(value, BaseContainerTypes().all)` for a single object. -/
def isContainerElem : PyElem → Bool
  | .container _ => true
  | _ => false

/-- `_contains_sub_container` (container.py): for a linear source scan the
elements, for a named source scan the mapped values. -/
def containsSubContainer : PyContainer → Bool
  | .list xs | .tupl xs | .pset xs | .fset xs => xs.any isContainerElem
  | .dict ps => ps.any (fun p => isContainerElem p.2)

/-- `_contains_sub_container` applied to an arbitrary argument (non-containers
fall through both isinstance checks and yield False). -/
def containsSubContainerE : PyElem → Bool
  | .container c => containsSubContainer c
  | _ => false

/-- Errors raised while constructing a `BaseContainer`:
`nested` is GroupBaseContainerException "Expected a non-container, ...",
`notAContainer` is GroupBaseContainerException "Expected a container, but
received a non-container ...", `typeError` is the attrs validator TypeError on
the `_type` field. -/
inductive ContainerError where
  | nested | notAContainer | typeError
deriving DecidableEq

/-- The linear-source loop of `_base_container_converter`: raise on a nested
container, keep an existing `BaseValue`, wrap a scalar in `BaseValue`
(`app/src/base/value.py` is not among the sources; per the spec a `BaseValue`
immutably wraps one primitive and `value()` returns it unchanged, so wrapped
items are carried as their underlying scalar). -/
def convLinear : List PyElem → Except ContainerError (List UnitValue)
  | [] => .ok []
  | e :: rest =>
    match e with
    | .container _ => .error .nested
    | .value v => (convLinear rest).map (fun t => v :: t)
    | .scalar v => (convLinear rest).map (fun t => v :: t)

/-- The named-source loop of `_base_container_converter`: for each pair emits
`BaseValue(key)` then the value (kept if already a `BaseValue`), raising on a
container value. -/
def convNamed : List (UnitValue × PyElem) → Except ContainerError (List UnitValue)
  | [] => .ok []
  | (k, v) :: rest =>
    match v with
    | .container _ => .error .nested
    | .value u => (convNamed rest).map (fun t => k :: u :: t)
    | .scalar u => (convNamed rest).map (fun t => k :: u :: t)

/-- `_base_container_converter` (container.py): nested-container pre-check,
then the linear / named loops, otherwise the "expected a container" error. -/
def baseContainerConverter (item : PyElem) : Except ContainerError (List UnitValue) :=
  if containsSubContainerE item then .error .nested
  else
    match item with
    | .container (.list xs) => convLinear xs
    | .container (.tupl xs) => convLinear xs
    | .container (.pset xs) => convLinear xs
    | .container (.fset xs) => convLinear xs
    | .container (.dict ps) => convNamed ps
    | _ => .error .notAContainer

/-- The `kind` argument of the `BaseContainer` constructor: an alias string, a
Python type object, or anything else (which the attrs validator rejects). -/
inductive KindArg where
  | alias (s : String)
  | pytype (k : CKind)
  | invalid
deriving DecidableEq

/-- Container-kind alias table.  Modelled from the spec: `app/src/base/types.py`
is not among the sources; the alias tuples follow the spec's registry
(each container kind carrying its alias set) as laid out in
`src/groups/base/types.py`. -/
def containerAliases : CKind → List String
  | .dict => ["Dictionary", "dictionary", "DICTIONARY", "Dict", "dict", "DICT",
              "DictType", "dict_type", "DICT_TYPE"]
  | .list => ["List", "list", "LIST", "ListType", "list_type", "LIST_TYPE"]
  | .tupl => ["Tuple", "tuple", "TUPLE", "TupleType", "tuple_type", "TUPLE_TYPE"]
  | .set => ["Set", "set", "SET", "SetType", "set_type", "SET_TYPE"]
  | .fset => ["FrozenSet", "frozenset", "FROZENSET",
              "FrozenSetType", "frozenset_type", "FROZENSET_TYPE"]

/-- `BaseContainerTypes()._get_type_from_alias`: first kind declaring the
alias, None otherwise. -/
def containerTypeFromAlias (s : String) : Option CKind :=
  [CKind.dict, CKind.list, CKind.tupl, CKind.set, CKind.fset].find?
    (fun k => (containerAliases k).contains s)

/-- `_base_container_type_converter` (container.py): a nonempty string is
resolved through the alias table, a type object is kept, anything else becomes
None (and then fails the `instance_of(type | str)` validator). -/
def baseContainerTypeConverter : KindArg → Option CKind
  | .alias s => if s.length > 0 then containerTypeFromAlias s else none
  | .pytype k => some k
  | .invalid => none

/-- The constructed `BaseContainer`: the converted `_items` tuple and the
resolved `_type`. -/
structure BaseCont where
  items : List UnitValue
  type : CKind
deriving DecidableEq

/-- `BaseContainer(source, kind)` construction.  attrs runs the `_items`
converter first, then the `_type` converter and validator; the `kind` argument
defaults to the Python type `tuple` (field declaration `default=tuple`). -/
def constructCont (src : PyElem) (kindArg : Option KindArg) : Except ContainerError BaseCont :=
  match baseContainerConverter src with
  | .error e => .error e
  | .ok items =>
    match baseContainerTypeConverter (kindArg.getD (.pytype .tupl)) with
    | some k => .ok ⟨items, k⟩
    | none => .error .typeError

/-- De-interleaving used by `_unpack` for the dict case:
`keys = item[::2]`, `values = item[1::2]`, `zip` (an odd trailing element is
dropped by `zip`). -/
def deinterleave : List UnitValue → List (UnitValue × UnitValue)
  | k :: v :: rest => (k, v) :: deinterleave rest
  | _ => []

/-- `BaseContainer._unpack` (container.py): rebuild the native collection for
the container's kind.  The set/frozenset comprehensions build a Python set,
which de-duplicates; `List.dedup` models that (Python's iteration order for a
set is unspecified, so a deterministic de-duplication order is chosen). -/
def unpack (items : List UnitValue) (k : CKind) : PyContainer :=
  match k with
  | .list => .list (items.map .scalar)
  | .tupl => .tupl (items.map .scalar)
  | .set => .pset (items.dedup.map .scalar)
  | .fset => .fset (items.dedup.map .scalar)
  | .dict => .dict ((deinterleave items).map (fun p => (p.1, PyElem.scalar p.2)))

/-- `repackage`: `_unpack(item=self.items, type_=self.type)` (`_unpack` first
resolves the kind's name back through the alias table, which is the identity
on the five kind names). -/
def repackage (c : BaseCont) : PyContainer :=
  unpack c.items c.type

/-- Construct-then-repackage composition used by the round-trip claims. -/
def roundTrip (src : PyContainer) (k : CKind) : Except ContainerError PyContainer :=
  (constructCont (.container src) (some (.pytype k))).map repackage

/-- An SHA-256 digest, modelled as the free algebra generated by digests of
strings and digests of concatenated digest pairs (an idealized collision-free
hash; `sha256.py` is not among the sources, its digests are opaque values
per the spec's "fixed-size cryptographic digest over bytes/text"). -/
inductive Hash where
  | leaf (s : String)
  | node (a b : Hash)
deriving DecidableEq

/-- Canonical byte encoding of a scalar (tag plus payload), per the spec's
"digest of a canonical byte encoding of raw". -/
def canonicalEncode : UnitValue → String
  | .vInt n => "int:" ++ toString n
  | .vFloat r => "float:" ++ r
  | .vBool b => "bool:" ++ toString b
  | .vStr s => "str:" ++ s
  | .vBytes s => "bytes:" ++ s

/-- Modelled from the spec: `BaseValue.content_hash` (`app/src/base/value.py`
is not among the sources) — the digest of the canonical encoding of the raw
scalar. -/
def valueContentHash (v : UnitValue) : Hash :=
  .leaf (canonicalEncode v)

/-- `MerkleTree._hash_items`: digest of the concatenation of two digests;
a missing second item is replaced by the first (odd-tail self-pairing). -/
def hashItems (a : Hash) (b : Option Hash) : Hash :=
  match b with
  | none => .node a a
  | some b => .node a b

/-- `MerkleTree.hash_level`: pair up a level left to right, self-pairing an
odd trailing element. -/
def hashLevel : List Hash → List Hash
  | [] => []
  | [x] => [Hash.node x x]
  | x :: y :: rest => Hash.node x y :: hashLevel rest

theorem hashLevel_length : ∀ l : List Hash, (hashLevel l).length = (l.length + 1) / 2
  | [] => by simp [hashLevel]
  | [_] => by simp [hashLevel]
  | _ :: _ :: rest => by
    simp [hashLevel, hashLevel_length rest]
    omega

/-- The `while len(level) > 1` loop of `MerkleTree.build`: repeatedly hash the
level until a single hash remains. -/
def reduceRoot : List Hash → Option Hash
  | [] => none
  | [x] => some x
  | x :: y :: rest => reduceRoot (hashLevel (x :: y :: rest))
termination_by l => l.length
decreasing_by
  simp [hashLevel_length]
  omega

/-- Modelled from the spec: the Merkle root over an ordered leaf sequence as
computed by the `app/src/utils/crypto.py` MerkleTree (not among the sources):
empty leaves give the None sentinel, a single leaf is paired with itself, and
larger levels are reduced by `hash_level`. -/
def merkleRoot : List Hash → Option Hash
  | [] => none
  | [x] => some (Hash.node x x)
  | x :: y :: rest => reduceRoot (hashLevel (x :: y :: rest))

theorem reduceRoot_isSome : ∀ l : List Hash, l ≠ [] → (reduceRoot l).isSome = true
  | [], h => absurd rfl h
  | [_], _ => by simp [reduceRoot]
  | x :: y :: rest, _ => by
    rw [reduceRoot]
    refine reduceRoot_isSome _ ?_
    have hlen : 0 < (hashLevel (x :: y :: rest)).length := by
      rw [hashLevel_length]
      simp
      omega
    exact List.ne_nil_of_length_pos hlen
termination_by l => l.length
decreasing_by
  simp [hashLevel_length]
  omega

theorem merkleRoot_isSome (l : List Hash) (h : l ≠ []) : (merkleRoot l).isSome = true := by
  match l with
  | [] => exact absurd rfl h
  | [x] => simp [merkleRoot]
  | x :: y :: rest =>
    rw [merkleRoot]
    refine reduceRoot_isSome _ ?_
    have hlen : 0 < (hashLevel (x :: y :: rest)).length := by
      rw [hashLevel_length]
      simp
      omega
    exact List.ne_nil_of_length_pos hlen

/-- The Merkle tree of the app crypto module, as used by `BaseContainer`:
it keeps the original leaves and exposes root and leaf membership. -/
structure MerkleTreeApp where
  leaves : List Hash
deriving DecidableEq

def MerkleTreeApp.root (t : MerkleTreeApp) : Option Hash :=
  merkleRoot t.leaves

/-- `MerkleTree.verify` (crypto.py): `leaf_hash not in self.leaves` — plain
membership among the original leaves, no authentication path. -/
def MerkleTreeApp.verify (t : MerkleTreeApp) (h : Hash) : Bool :=
  t.leaves.contains h

/-- `type.__name__` of each container kind. -/
def kindName : CKind → String
  | .list => "list"
  | .tupl => "tuple"
  | .set => "set"
  | .fset => "frozenset"
  | .dict => "dict"

/-- `MerkleTree.hash_func(repr(self.type))`: the digest of the Python `repr`
of the kind-name string. -/
def kindTagHash (k : CKind) : Hash :=
  .leaf ("'" ++ kindName k ++ "'")

/-- The leaf sequence assembled by `BaseContainer._hash`: the loop
`hashed_items = hashed_items + (item._hash().root(),)` over `__iter_items__`,
then the trailing kind-tag hash. -/
def containerHashedItems (c : BaseCont) : List Hash :=
  (c.items.foldl (fun acc it => acc ++ [valueContentHash it]) []) ++ [kindTagHash c.type]

/-- The MerkleTree returned by `BaseContainer._hash`. -/
def containerHashTree (c : BaseCont) : MerkleTreeApp :=
  ⟨containerHashedItems c⟩

/-- `content_hash`: the root of the container's Merkle tree. -/
def containerContentHash (c : BaseCont) : Option Hash :=
  (containerHashTree c).root

/-- `BaseContainer._verify_item` reduced to its candidate-hash core:
`self._hash().verify(leaf_hash)`. -/
def verifyMembership (c : BaseCont) (h : Hash) : Bool :=
  (containerHashTree c).verify h

theorem foldl_append_eq_map (f : UnitValue → Hash) :
    ∀ (l : List UnitValue) (acc : List Hash),
      l.foldl (fun acc it => acc ++ [f it]) acc = acc ++ l.map f
  | [], acc => by simp
  | x :: rest, acc => by
    simp [List.foldl_cons, foldl_append_eq_map f rest]

theorem containerHashedItems_eq (c : BaseCont) :
    containerHashedItems c = c.items.map valueContentHash ++ [kindTagHash c.type] := by
  simp [containerHashedItems, foldl_append_eq_map]

/-- The `Leaves` attrs class of `src/groups/utils/crypto.py`: it stores the
converted leaf tuple and defines `__len__` and `__iter__` — but no
`__getitem__`. -/
structure LeavesPy where
  leaves : List Hash
deriving DecidableEq

/-- Python exceptions surfacing in the crypto module. -/
inductive PyExc where
  | typeErrorNotSubscriptable
  | indexError
deriving DecidableEq

/-- `leaves_object[i]`: `Leaves` defines no `__getitem__`, so every subscript
raises `TypeError: 'Leaves' object is not subscriptable`. -/
def LeavesPy.getItem : LeavesPy → Nat → Except PyExc Hash :=
  fun _ _ => .error .typeErrorNotSubscriptable

/-- An entry of `MerkleTree.levels`: the `Leaves` object placed at index 0 by
`__init__`, or a tuple of hashes produced by `hash_level`. -/
inductive LevelVal where
  | lv (l : LeavesPy)
  | tup (l : List Hash)
deriving DecidableEq

/-- `len(level)`. -/
def levelLen : LevelVal → Nat
  | .lv l => l.leaves.length
  | .tup l => l.length

/-- `MerkleTree.hash_level` applied to a level object.  On a tuple it pairs
left to right with odd-tail self-pairing; on the `Leaves` object the loop's
very first subscript `level[i]` raises TypeError (an empty `Leaves` skips the
loop body entirely and returns the empty tuple). -/
def hashLevelPy : LevelVal → Except PyExc (List Hash)
  | .lv l => if l.leaves.length = 0 then .ok [] else .error .typeErrorNotSubscriptable
  | .tup l => .ok (hashLevel l)

/-- The `while len(level) > 1` loop of `MerkleTree.build`.  `fuel` only bounds
the iteration count: each `hash_level` of a tuple at least halves the level,
so `fuel = len(leaves) + 1` iterations are never exhausted (the loop body is
reached at most once before either finishing or raising). -/
def buildLoopPy (fuel : Nat) (level : LevelVal) (levels : List LevelVal) :
    Except PyExc (List LevelVal) :=
  match fuel with
  | 0 => .ok levels
  | fuel + 1 =>
    if levelLen level ≤ 1 then .ok levels
    else do
      let hl ← hashLevelPy level
      buildLoopPy fuel (.tup hl) (levels ++ [.tup hl])

/-- `MerkleTree.build` (crypto.py): `level = self.leaves` (the `Leaves`
object), the single-leaf branch `self._hash_items(level[0])`, then the while
loop.  Both the single-leaf branch and the first `hash_level(level)` call
subscript the `Leaves` object and raise TypeError; only the empty tree
completes.  (In the single-leaf branch the source would append the bare digest
to `levels`; that point is unreachable because `level[0]` has already raised,
and it is rendered here as a one-element tuple only to keep a single
`LevelVal` type.) -/
def buildPy (lv : LeavesPy) : Except PyExc (List LevelVal) := do
  let levels0 : List LevelVal := [.lv lv]
  let levels1 ←
    if lv.leaves.length = 1 then do
      let x ← lv.getItem 0
      pure (levels0 ++ [LevelVal.tup [hashItems x none]])
    else pure levels0
  buildLoopPy (lv.leaves.length + 1) (.lv lv) levels1

/-- `MerkleTree.__init__(hashed_data)`: wrap the data in `Leaves`, seed
`levels` with it, and run `build`. -/
def mkMerkleTreePy (hashedData : List Hash) : Except PyExc (LeavesPy × List LevelVal) := do
  let lv : LeavesPy := ⟨hashedData⟩
  let levels ← buildPy lv
  pure (lv, levels)

/-- The `root` property (crypto.py): `self.levels[-1]` is evaluated first
(IndexError on an empty tuple), the `is None` / length guards return the None
sentinel when the leaves are empty, otherwise `self.levels[-1][0]` is
returned — which subscripts the last level. -/
def rootPy (t : LeavesPy × List LevelVal) : Except PyExc (Option Hash) :=
  match t.2.getLast? with
  | none => .error .indexError
  | some last =>
    if t.1.leaves.length = 0 then .ok none
    else
      match last with
      | .lv _ => .error .typeErrorNotSubscriptable
      | .tup [] => .error .indexError
      | .tup (h :: _) => .ok (some h)

/-- `MerkleTree.verify` (crypto.py): plain membership of the candidate among
the stored leaves. -/
def verifyPy (t : LeavesPy × List LevelVal) (h : Hash) : Bool :=
  t.1.leaves.contains h

/-- Python substring containment `sub in s`. -/
def strContains (s sub : String) : Bool :=
  s.data.tails.any (fun t => sub.data.isPrefixOf t)

/-- The ten built-in base types of `BaseTypes_` (`src/groups/base/types.py`),
in attrs slot (declaration) order. -/
inductive BType where
  | integer | floatingPoint | boolean | string | bytes
  | dictionary | list | tupl | set | frozenset
deriving DecidableEq

/-- The alias tuples of the built-in base types, copied from the field
defaults of `BaseTypes_`. -/
def btAliases : BType → List String
  | .integer =>
    ["Integer", "integer", "INTEGER", "Int", "int", "INT",
     "IntegerType", "integer_type", "INTEGER_TYPE", "IntType", "int_type", "INT_TYPE"]
  | .floatingPoint =>
    ["FloatingPoint", "floating_point", "FLOATING_POINT", "Float", "float", "FLOAT",
     "FloatingPointType", "floating_point_type", "FLOATING_POINT_TYPE",
     "FloatType", "float_type", "FLOAT_TYPE"]
  | .boolean =>
    ["Boolean", "boolean", "BOOLEAN", "Bool", "bool", "BOOL",
     "BooleanType", "boolean_type", "BOOLEAN_TYPE", "BoolType", "bool_type", "BOOL_TYPE"]
  | .string =>
    ["String", "string", "STRING", "Str", "str", "STR",
     "StringType", "string_type", "STRING_TYPE", "StrType", "str_type", "STR_TYPE"]
  | .bytes => ["Bytes", "bytes", "BYTES", "BytesType", "bytes_type", "BYTES_TYPE"]
  | .dictionary =>
    ["Dictionary", "dictionary", "DICTIONARY", "Dict", "dict", "DICT",
     "DictType", "dict_type", "DICT_TYPE"]
  | .list => ["List", "list", "LIST", "ListType", "list_type", "LIST_TYPE"]
  | .tupl => ["Tuple", "tuple", "TUPLE", "TupleType", "tuple_type", "TUPLE_TYPE"]
  | .set => ["Set", "set", "SET", "SetType", "set_type", "SET_TYPE"]
  | .frozenset =>
    ["FrozenSet", "frozenset", "FROZENSET",
     "FrozenSetType", "frozenset_type", "FROZENSET_TYPE"]

/-- `BaseTypes_.all_base_types`: the slots in declaration order. -/
def allBaseTypes : List BType :=
  [.integer, .floatingPoint, .boolean, .string, .bytes,
   .dictionary, .list, .tupl, .set, .frozenset]

/-- Errors raised by alias lookup (both are GroupBaseTypeException):
`substringOf q a` is "Alias q is a substring of a, and should be removed"
raised inside `BaseTypeInterface._contains`; `doesNotExist q` is
"BaseType with aliases q does not exist" raised by `BaseTypes_._get_type`. -/
inductive TypeLookupError where
  | substringOf (query al : String)
  | doesNotExist (query : String)
deriving DecidableEq

/-- `BaseTypeInterface._contains("aliases", query)` with `exclude=None` (the
`_get_type` path): exact tuple membership returns True; otherwise the alias
loop raises on the first alias having `query` as a substring; otherwise
False. -/
def typeContainsAlias (t : BType) (query : String) : Except TypeLookupError Bool :=
  if (btAliases t).contains query then .ok true
  else
    match (btAliases t).find? (fun a => strContains a query) with
    | some a => .error (.substringOf query a)
    | none => .ok false

/-- The loop of `BaseTypes_._get_type("aliases", query)` over a list of base
types, falling through to the does-not-exist exception. -/
def getTypeAux (query : String) : List BType → Except TypeLookupError BType
  | [] => .error (.doesNotExist query)
  | t :: ts =>
    match typeContainsAlias t query with
    | .ok true => .ok t
    | .ok false => getTypeAux query ts
    | .error e => .error e

/-- `BaseTypes_._get_type("aliases", query)` — the registry's
`resolve_alias`. -/
def resolveAlias (query : String) : Except TypeLookupError BType :=
  getTypeAux query allBaseTypes

theorem getTypeAux_doesNotExist (query : String) :
    ∀ l : List BType,
      (∀ t ∈ l, (btAliases t).contains query = false) →
      (∀ t ∈ l, ∀ a ∈ btAliases t, strContains a query = false) →
      getTypeAux query l = .error (.doesNotExist query)
  | [], _, _ => rfl
  | t :: ts, hmem, hsub => by
    have h1 : (btAliases t).contains query = false := hmem t (by simp)
    have h2 : (btAliases t).find? (fun a => strContains a query) = none := by
      rw [List.find?_eq_none]
      intro a ha
      simp [hsub t (by simp) a ha]
    rw [getTypeAux, typeContainsAlias, h1]
    simp only [Bool.false_eq_true, if_false, h2]
    exact getTypeAux_doesNotExist query ts
      (fun t ht => hmem t (by simp [ht]))
      (fun t ht => hsub t (by simp [ht]))

theorem getTypeAux_substring (query : String) :
    ∀ l : List BType,
      (∀ t ∈ l, (btAliases t).contains query = false) →
      (∃ t ∈ l, ∃ a ∈ btAliases t, strContains a query = true) →
      ∃ a : String, getTypeAux query l = .error (.substringOf query a)
  | [], _, hex => by simp at hex
  | t :: ts, hmem, hex => by
    have h1 : (btAliases t).contains query = false := hmem t (by simp)
    rw [getTypeAux, typeContainsAlias, h1]
    simp only [Bool.false_eq_true, if_false]
    by_cases hin : ∃ a ∈ btAliases t, strContains a query = true
    · have hsome : ((btAliases t).find? (fun a => strContains a query)).isSome := by
        rw [List.find?_isSome]
        exact hin
      obtain ⟨a, ha⟩ := Option.isSome_iff_exists.mp hsome
      rw [ha]
      exact ⟨a, rfl⟩
    · have hnone : (btAliases t).find? (fun a => strContains a query) = none := by
        rw [List.find?_eq_none]
        intro a ha
        simp only [Bool.not_eq_true]
        by_contra hc
        exact hin ⟨a, ha, by simpa using hc⟩
      rw [hnone]
      refine getTypeAux_substring query ts (fun t ht => hmem t (by simp [ht])) ?_
      obtain ⟨t0, ht0, ha0⟩ := hex
      rcases List.mem_cons.mp ht0 with h | h
      · exact absurd (h ▸ ha0) hin
      · exact ⟨t0, h, ha0⟩

/-- Python slice `s[a:-1]`. -/
def pySliceToLast (a : Nat) (s : String) : String :=
  ⟨(s.data.drop a).dropLast⟩

/-- Python slice `s[:-1]`. -/
def pyDropLast (s : String) : String :=
  ⟨s.data.dropLast⟩

/-- Python `s.startswith(p)`. -/
def pyStartsWith (s p : String) : Bool :=
  p.data.isPrefixOf s.data

/-- Python `x or y` on strings: `x` when nonempty, else `y`. -/
def pyOr (a b : String) : String :=
  if a.data = [] then b else a

/-- Python `s.replace(pat, rep)` on character lists: all non-overlapping
occurrences replaced left to right (the patterns used here are never
empty). -/
def replaceL (pat rep : List Char) : List Char → List Char
  | [] => []
  | c :: rest =>
    if h : pat.isPrefixOf (c :: rest) ∧ 0 < pat.length then
      rep ++ replaceL pat rep ((c :: rest).drop pat.length)
    else
      c :: replaceL pat rep rest
termination_by l => l.length
decreasing_by
  · simp only [List.length_drop, List.length_cons]
    omega
  · simp

/-- Python `s.replace(pat, rep)`. -/
def pyReplace (s pat rep : String) : String :=
  ⟨replaceL pat.data rep.data s.data⟩

theorem replaceL_nil_length_aux (pat : List Char) :
    ∀ (n : Nat) (l : List Char), l.length ≤ n → (replaceL pat [] l).length ≤ l.length := by
  intro n
  induction n with
  | zero =>
    intro l hl
    have : l = [] := List.length_eq_zero.mp (Nat.le_zero.mp hl)
    subst this
    simp [replaceL]
  | succ n ih =>
    intro l hl
    match l with
    | [] => simp [replaceL]
    | c :: rest =>
      rw [replaceL]
      split
      · next h =>
        have hlen : ((c :: rest).drop pat.length).length ≤ n := by
          simp only [List.length_drop, List.length_cons]
          simp only [List.length_cons] at hl
          omega
        calc ([] ++ replaceL pat [] ((c :: rest).drop pat.length)).length
            = (replaceL pat [] ((c :: rest).drop pat.length)).length := by simp
          _ ≤ ((c :: rest).drop pat.length).length := ih _ hlen
          _ ≤ (c :: rest).length := by simp only [List.length_drop]; omega
      · have hlen : rest.length ≤ n := by
          simp only [List.length_cons] at hl
          omega
        simpa using Nat.succ_le_succ (ih rest hlen)

theorem replaceL_nil_length (pat l : List Char) :
    (replaceL pat [] l).length ≤ l.length :=
  replaceL_nil_length_aux pat l.length l (le_refl _)

theorem pyReplace_nil_length (s pat : String) :
    (pyReplace s pat "").length ≤ s.length :=
  replaceL_nil_length pat.data s.data

theorem pyStartsWith_length {s p : String} (h : pyStartsWith s p = true) :
    p.length ≤ s.length := by
  simp only [pyStartsWith] at h
  exact (List.isPrefixOf_iff_prefix.mp h).length_le

theorem pySliceToLast_length (a : Nat) (s : String) :
    (pySliceToLast a s).length = s.length - a - 1 := by
  show ((s.data.drop a).dropLast).length = s.data.length - a - 1
  rw [List.length_dropLast, List.length_drop]

theorem pyDropLast_length (s : String) :
    (pyDropLast s).length = s.length - 1 := by
  show (s.data.dropLast).length = s.data.length - 1
  rw [List.length_dropLast]

/-- One pass of `BaseSchema._unpack_strings` (schema.py): strip the outermost
recognized wrapper, schema references collapsing to the "schema" marker. -/
def unpackStep (s : String) : String :=
  if pyStartsWith s "schema:" then "schema"
  else if pyStartsWith s "list[" then pySliceToLast 5 s
  else if pyStartsWith s "tuple[" || pyStartsWith s "tuple(" then pySliceToLast 6 s
  else if pyStartsWith s "set[" || pyStartsWith (pyDropLast s) "set\x7b"
       || pyStartsWith (pyDropLast s) "set(" then pySliceToLast 4 s
  else if pyStartsWith s "frozenset(\x7b" || pyStartsWith s "frozenset("
       || pyStartsWith s "frozenset[" then
    pyOr (pyReplace (pyReplace (pySliceToLast 11 s) "frozenset(\x7b" "") "\x7d)" "")
         (pyReplace (pySliceToLast 10 s) "frozenset[" "")
  else if pyStartsWith s "dict\x7b" || pyStartsWith s "dict[" then pySliceToLast 5 s
  else s

theorem unpackStep_lt (s : String) (h : unpackStep s ≠ s) :
    (unpackStep s).length < s.length := by
  unfold unpackStep at h ⊢
  split_ifs at h ⊢ with h1 h2 h3 h4 h5 h6
  · have hs := pyStartsWith_length h1
    have e1 : ("schema:" : String).length = 7 := rfl
    have e2 : ("schema" : String).length = 6 := rfl
    omega
  · have hs := pyStartsWith_length h2
    have e1 : ("list[" : String).length = 5 := rfl
    rw [pySliceToLast_length]
    omega
  · rw [Bool.or_eq_true] at h3
    have hs : 6 ≤ s.length := by
      rcases h3 with h3 | h3
      · have := pyStartsWith_length h3
        have e : ("tuple[" : String).length = 6 := rfl
        omega
      · have := pyStartsWith_length h3
        have e : ("tuple(" : String).length = 6 := rfl
        omega
    rw [pySliceToLast_length]
    omega
  · rw [Bool.or_eq_true, Bool.or_eq_true] at h4
    have hs : 4 ≤ s.length := by
      rcases h4 with (h4 | h4) | h4
      · have := pyStartsWith_length h4
        have e : ("set[" : String).length = 4 := rfl
        omega
      · have := pyStartsWith_length h4
        have e : ("set\x7b" : String).length = 4 := rfl
        rw [pyDropLast_length] at this
        omega
      · have := pyStartsWith_length h4
        have e : ("set(" : String).length = 4 := rfl
        rw [pyDropLast_length] at this
        omega
    rw [pySliceToLast_length]
    omega
  · rw [Bool.or_eq_true, Bool.or_eq_true] at h5
    have hs : 10 ≤ s.length := by
      rcases h5 with (h5 | h5) | h5
      · have := pyStartsWith_length h5
        have e : ("frozenset(\x7b" : String).length = 11 := rfl
        omega
      · have := pyStartsWith_length h5
        have e : ("frozenset(" : String).length = 10 := rfl
        omega
      · have := pyStartsWith_length h5
        have e : ("frozenset[" : String).length = 10 := rfl
        omega
    have hx : (pyReplace (pyReplace (pySliceToLast 11 s) "frozenset(\x7b" "") "\x7d)" "").length
        ≤ s.length - 12 := by
      calc (pyReplace (pyReplace (pySliceToLast 11 s) "frozenset(\x7b" "") "\x7d)" "").length
          ≤ (pyReplace (pySliceToLast 11 s) "frozenset(\x7b" "").length := pyReplace_nil_length _ _
        _ ≤ (pySliceToLast 11 s).length := pyReplace_nil_length _ _
        _ ≤ s.length - 12 := by rw [pySliceToLast_length]; omega
    have hy : (pyReplace (pySliceToLast 10 s) "frozenset[" "").length ≤ s.length - 11 := by
      calc (pyReplace (pySliceToLast 10 s) "frozenset[" "").length
          ≤ (pySliceToLast 10 s).length := pyReplace_nil_length _ _
        _ ≤ s.length - 11 := by rw [pySliceToLast_length]; omega
    unfold pyOr
    split
    · omega
    · omega
  · rw [Bool.or_eq_true] at h6
    have hs : 5 ≤ s.length := by
      rcases h6 with h6 | h6
      · have := pyStartsWith_length h6
        have e : ("dict\x7b" : String).length = 5 := rfl
        omega
      · have := pyStartsWith_length h6
        have e : ("dict[" : String).length = 5 := rfl
        omega
    rw [pySliceToLast_length]
    omega
  · exact absurd rfl h

/-- `BaseSchema._unpack_strings`: iterate `unpackStep` until it makes no
progress (the source recurses while the stripped string differs from its
input). -/
def unpackStrings (s : String) : String :=
  if h : unpackStep s = s then s
  else unpackStrings (unpackStep s)
termination_by s.length
decreasing_by exact unpackStep_lt s h

theorem unpackStrings_length_le_aux :
    ∀ (n : Nat) (s : String), s.length ≤ n → (unpackStrings s).length ≤ s.length := by
  intro n
  induction n with
  | zero =>
    intro s h0
    rw [unpackStrings]
    split
    · exact le_refl _
    · next h =>
      have hlt := unpackStep_lt s h
      exact absurd hlt (by omega)
  | succ n ih =>
    intro s hl
    rw [unpackStrings]
    split
    · exact le_refl _
    · next h =>
      have hlt := unpackStep_lt s h
      exact le_trans (ih (unpackStep s) (by omega)) (le_of_lt hlt)

theorem unpackStrings_length_le (s : String) : (unpackStrings s).length ≤ s.length :=
  unpackStrings_length_le_aux s.length s (le_refl _)

/-- Substring occurrence on character lists (`pat in l`). -/
def containsL (pat l : List Char) : Bool :=
  l.tails.any (fun t => pat.isPrefixOf t)

theorem strContains_eq (s sub : String) :
    strContains s sub = containsL sub.data s.data := rfl

theorem containsL_cons (pat : List Char) (c : Char) (rest : List Char) :
    containsL pat (c :: rest) = (pat.isPrefixOf (c :: rest) || containsL pat rest) := by
  simp [containsL, List.tails_cons]

theorem containsL_nil_false {pat : List Char} (h : 0 < pat.length) :
    containsL pat [] = false := by
  match pat, h with
  | p :: ps, _ => simp [containsL, List.isPrefixOf]

/-- Python `s.split(sep)` on character lists (for nonempty separators):
non-overlapping matches left to right, empty pieces kept. -/
def splitOnL (sep : List Char) : List Char → List (List Char)
  | [] => [[]]
  | c :: rest =>
    if h : sep.isPrefixOf (c :: rest) ∧ 0 < sep.length then
      [] :: splitOnL sep ((c :: rest).drop sep.length)
    else
      match splitOnL sep rest with
      | [] => [[c]]
      | p :: ps => (c :: p) :: ps
termination_by l => l.length
decreasing_by
  · simp only [List.length_drop, List.length_cons]
    omega
  · simp

/-- Python `s.split(sep)`. -/
def pySplit (s sep : String) : List String :=
  (splitOnL sep.data s.data).map (fun l => ⟨l⟩)

theorem splitOnL_ne_nil (sep l : List Char) : splitOnL sep l ≠ [] := by
  match l with
  | [] => simp [splitOnL]
  | c :: rest =>
    rw [splitOnL]
    split
    · simp
    · split <;> simp

theorem splitOnL_piece_le_aux (sep : List Char) :
    ∀ (n : Nat) (l : List Char), l.length ≤ n →
      ∀ p ∈ splitOnL sep l, p.length ≤ l.length := by
  intro n
  induction n with
  | zero =>
    intro l hl p hp
    have : l = [] := List.length_eq_zero.mp (Nat.le_zero.mp hl)
    subst this
    simp [splitOnL] at hp
    simp [hp]
  | succ n ih =>
    intro l hl p hp
    match l with
    | [] =>
      simp [splitOnL] at hp
      simp [hp]
    | c :: rest =>
      rw [splitOnL] at hp
      split at hp
      · next h =>
        rcases List.mem_cons.mp hp with rfl | hp2
        · simp
        · have hd : ((c :: rest).drop sep.length).length ≤ n := by
            simp only [List.length_drop, List.length_cons]
            simp only [List.length_cons] at hl
            omega
          have hle := ih _ hd p hp2
          simp only [List.length_drop, List.length_cons] at hle ⊢
          omega
      · split at hp
        · next heq => exact absurd heq (splitOnL_ne_nil sep rest)
        · next p0 ps heq =>
          have hrest : rest.length ≤ n := by
            simp only [List.length_cons] at hl
            omega
          rcases List.mem_cons.mp hp with rfl | hp2
          · have hmem : p0 ∈ splitOnL sep rest := by rw [heq]; simp
            have := ih rest hrest p0 hmem
            simp only [List.length_cons]
            omega
          · have hmem : p ∈ splitOnL sep rest := by rw [heq]; simp [hp2]
            have := ih rest hrest p hmem
            simp only [List.length_cons]
            omega

theorem splitOnL_piece_le (sep l : List Char) :
    ∀ p ∈ splitOnL sep l, p.length ≤ l.length :=
  splitOnL_piece_le_aux sep l.length l (le_refl _)

theorem splitOnL_piece_lt_aux (sep : List Char) (hsep : 0 < sep.length) :
    ∀ (n : Nat) (l : List Char), l.length ≤ n → containsL sep l = true →
      ∀ p ∈ splitOnL sep l, p.length < l.length := by
  intro n
  induction n with
  | zero =>
    intro l hl hc p hp
    have : l = [] := List.length_eq_zero.mp (Nat.le_zero.mp hl)
    subst this
    rw [containsL_nil_false hsep] at hc
    exact absurd hc (by simp)
  | succ n ih =>
    intro l hl hc p hp
    match l with
    | [] =>
      rw [containsL_nil_false hsep] at hc
      exact absurd hc (by simp)
    | c :: rest =>
      rw [splitOnL] at hp
      split at hp
      · next h =>
        rcases List.mem_cons.mp hp with rfl | hp2
        · simp
        · have hle := splitOnL_piece_le sep _ p hp2
          simp only [List.length_drop, List.length_cons] at hle ⊢
          omega
      · next h =>
        have hnpre : ¬ sep.isPrefixOf (c :: rest) = true := fun hA => h ⟨hA, hsep⟩
        have hcrest : containsL sep rest = true := by
          rw [containsL_cons, Bool.or_eq_true] at hc
          rcases hc with hA | hB
          · exact absurd hA hnpre
          · exact hB
        have hrest : rest.length ≤ n := by
          simp only [List.length_cons] at hl
          omega
        split at hp
        · next heq => exact absurd heq (splitOnL_ne_nil sep rest)
        · next p0 ps heq =>
          rcases List.mem_cons.mp hp with rfl | hp2
          · have hmem : p0 ∈ splitOnL sep rest := by rw [heq]; simp
            have := ih rest hrest hcrest p0 hmem
            simp only [List.length_cons]
            omega
          · have hmem : p ∈ splitOnL sep rest := by rw [heq]; simp [hp2]
            have := ih rest hrest hcrest p hmem
            simp only [List.length_cons]
            omega

theorem splitOnL_piece_lt (sep : List Char) (hsep : 0 < sep.length) (l : List Char)
    (hc : containsL sep l = true) :
    ∀ p ∈ splitOnL sep l, p.length < l.length :=
  splitOnL_piece_lt_aux sep hsep l.length l (le_refl _) hc

/-- `BaseSchema._get_values_from_string_tuple`: split on a comma-space, else a
bare comma, else keep the token whole. -/
def getValuesFromStringTuple (types : String) : List String :=
  if strContains types ", " then pySplit types ", "
  else if strContains types "," then pySplit types ","
  else [types]

theorem getValues_piece_lt (u : String) (hc : strContains u "," = true) :
    ∀ p ∈ getValuesFromStringTuple u, p.length < u.length := by
  intro p hp
  rw [getValuesFromStringTuple] at hp
  by_cases h1 : strContains u ", " = true
  · rw [if_pos h1] at hp
    simp only [pySplit, List.mem_map] at hp
    obtain ⟨l, hl, rfl⟩ := hp
    exact splitOnL_piece_lt _ (by decide) _ (by rw [strContains_eq] at h1; exact h1) l hl
  · rw [if_neg h1, if_pos hc] at hp
    simp only [pySplit, List.mem_map] at hp
    obtain ⟨l, hl, rfl⟩ := hp
    exact splitOnL_piece_lt _ (by decide) _ (by rw [strContains_eq] at hc; exact hc) l hl

/-- `BaseSchema._fully_unpack_types` on a single token: unpack, and if a comma
remains, split and recurse into every piece (the source calls
`_fully_unpack_types([split_type])` for each piece). -/
def fullyUnpackTok (s : String) : List String :=
  if h : strContains (unpackStrings s) "," = true then
    (getValuesFromStringTuple (unpackStrings s)).attach.foldl
      (fun acc p => acc ++ fullyUnpackTok p.1) []
  else [unpackStrings s]
termination_by s.length
decreasing_by
  have h1 := getValues_piece_lt (unpackStrings s) h p.1 p.2
  have h2 := unpackStrings_length_le s
  omega

/-- `BaseSchema._fully_unpack_types` over the token list. -/
def fullyUnpackTypes (types : List String) : List String :=
  types.foldl (fun acc s => acc ++ fullyUnpackTok s) []

theorem strData_append (a b : String) : (a ++ b).data = a.data ++ b.data := by
  cases a
  cases b
  rfl

theorem strAppend_empty (a : String) : a ++ "" = a := by
  cases a with
  | mk la =>
    show String.mk (la ++ []) = String.mk la
    rw [List.append_nil]

theorem strAppend_assoc (a b c : String) : (a ++ b) ++ c = a ++ (b ++ c) := by
  cases a with
  | mk la =>
    cases b with
    | mk lb =>
      cases c with
      | mk lc =>
        show String.mk ((la ++ lb) ++ lc) = String.mk (la ++ (lb ++ lc))
        rw [List.append_assoc]

/-- A schema field value: a type-descriptor string, or a nested `BaseSchema`
(the Descriptor variants of the spec; `schema:<name>` references are ordinary
strings).  `BaseSchema._schema` is an insertion-ordered dict of field name to
such a value. -/
inductive SVal where
  | tok (s : String)
  | sub (fields : List (String × SVal))

/-- `BaseSchema.__iter__`: yield `{key: value}` for every field; a nested
schema contributes `{key: "schema"}` followed by its own flattened fields. -/
def iterFields : List (String × SVal) → List (String × String)
  | [] => []
  | (k, .tok t) :: rest => (k, t) :: iterFields rest
  | (k, .sub fs) :: rest => ((k, "schema") :: iterFields fs) ++ iterFields rest

/-- `BaseSchema._get_key_types_from_schema`: collect every yielded value and
wrap the tuple in a Python set.  Python set iteration order is unspecified;
`List.dedup`, which keeps one occurrence of each token, is the deterministic
stand-in (the verification claims are insensitive to token order). -/
def getKeyTypesFromSchema (sch : List (String × SVal)) : List String :=
  ((iterFields sch).map Prod.snd).dedup

/-- The token match of `BaseSchema._verify_base_types`. -/
def isBaseTypeToken (t : String) : Bool :=
  t == "schema" || t == "schema:" || t == "bool" || t == "boolean"
    || t == "int" || t == "integer" || t == "float" || t == "number"
    || t == "str" || t == "string" || t == "bytes" || t == "byte"

/-- The sentence `_verify_base_types` appends for an invalid token. -/
def invalidTokenMsg (t : String) : String :=
  "Key type '" ++ t ++ "' is not valid. "

/-- `BaseSchema._verify_base_types`: fold over the tokens, clearing the flag
and appending one sentence per invalid token. -/
def verifyBaseTypes (baseTypes : List String) : Bool × String :=
  baseTypes.foldl
    (fun acc t => if isBaseTypeToken t then acc else (false, acc.2 ++ invalidTokenMsg t))
    (true, "")

/-- The leaf tokens `_verify_schema` checks: collected field tokens, set-
deduplicated, then fully unpacked. -/
def schemaTokens (sch : List (String × SVal)) : List String :=
  fullyUnpackTypes (getKeyTypesFromSchema sch)

/-- `BaseSchema._verify_schema`: returns the `(verified, err_msg)` pair of
`_verify_base_types` over the fully unpacked tokens. -/
def verifySchema (sch : List (String × SVal)) : Bool × String :=
  verifyBaseTypes (schemaTokens sch)

def joinMsgs : List String → String
  | [] => ""
  | t :: rest => t ++ joinMsgs rest

theorem verifyBaseTypes_go (ts : List String) :
    ∀ (b : Bool) (m : String),
      ts.foldl
        (fun acc t => if isBaseTypeToken t then acc else (false, acc.2 ++ invalidTokenMsg t))
        (b, m)
      = (b && ts.all isBaseTypeToken,
         m ++ joinMsgs ((ts.filter (fun t => !isBaseTypeToken t)).map invalidTokenMsg)) := by
  induction ts with
  | nil =>
    intro b m
    simp [joinMsgs, strAppend_empty]
  | cons t rest ih =>
    intro b m
    simp only [List.foldl_cons]
    by_cases h : isBaseTypeToken t = true
    · rw [if_pos h, ih b m]
      simp [List.all_cons, h, List.filter_cons]
    · rw [if_neg h, ih false (m ++ invalidTokenMsg t)]
      have hb : (!isBaseTypeToken t) = true := by simp [h]
      simp [List.all_cons, Bool.eq_false_iff.mpr h, List.filter_cons, hb, joinMsgs,
        strAppend_assoc]

theorem verifyBaseTypes_eq (ts : List String) :
    verifyBaseTypes ts
      = (ts.all isBaseTypeToken,
         joinMsgs ((ts.filter (fun t => !isBaseTypeToken t)).map invalidTokenMsg)) := by
  rw [verifyBaseTypes, verifyBaseTypes_go]
  have : ("" : String) ++ joinMsgs ((ts.filter (fun t => !isBaseTypeToken t)).map invalidTokenMsg)
      = joinMsgs ((ts.filter (fun t => !isBaseTypeToken t)).map invalidTokenMsg) := by
    cases joinMsgs ((ts.filter (fun t => !isBaseTypeToken t)).map invalidTokenMsg) with
    | mk l => rfl
  rw [Bool.true_and, this]

/-- Python exceptions of the draft value converter
(`app/src/converters.py`). -/
inductive ValueExc where
  | indexError | keyError
deriving DecidableEq

/-- `_convert_container_to_value` (app/src/converters.py): a list or tuple
yields its first element, a set pops an arbitrary element (the head of the
enumeration here), a frozenset is copied into a set and popped, a dict yields
the first key's mapped value, and anything else passes through unchanged.
Empty list/tuple/dict raise IndexError, empty set/frozenset KeyError. -/
def convertContainerToValue : PyElem → Except ValueExc PyElem
  | .container (.list xs) =>
    match xs with
    | [] => .error .indexError
    | x :: _ => .ok x
  | .container (.tupl xs) =>
    match xs with
    | [] => .error .indexError
    | x :: _ => .ok x
  | .container (.pset xs) =>
    match xs with
    | [] => .error .keyError
    | x :: _ => .ok x
  | .container (.fset xs) =>
    match xs with
    | [] => .error .keyError
    | x :: _ => .ok x
  | .container (.dict ps) =>
    match ps with
    | [] => .error .indexError
    | (_, v) :: _ => .ok v
  | e => .ok e

/-- `BaseValue(raw)` of the draft `app/src/base.py`: attrs runs the
`_convert_container_to_value` converter, then the `instance_of(unit_types)`
validator (`app/src/types.py` is not among the sources; per the spec and its
groups counterpart the unit-types union covers both scalars and containers,
so the validator passes on every converter result and the wrapped value is the
converter's output). -/
def constructBaseValue (raw : PyElem) : Except ValueExc PyElem :=
  convertContainerToValue raw

theorem scalars_no_subcontainer (xs : List UnitValue) :
    (xs.map PyElem.scalar).any isContainerElem = false := by
  induction xs with
  | nil => rfl
  | cons x rest ih => simp [isContainerElem, ih]

theorem scalarPairs_no_subcontainer (kvs : List (UnitValue × UnitValue)) :
    ((kvs.map (fun p => (p.1, PyElem.scalar p.2))).any (fun p => isContainerElem p.2))
      = false := by
  induction kvs with
  | nil => rfl
  | cons p rest ih =>
    obtain ⟨k, v⟩ := p
    simp only [List.map_cons, List.any_cons, ih, Bool.or_false]
    rfl

theorem convLinear_scalars : ∀ xs : List UnitValue, convLinear (xs.map .scalar) = .ok xs
  | [] => rfl
  | x :: rest => by simp [convLinear, convLinear_scalars rest, Except.map]

/-- Interleaved key, value, key, value, ... sequence built by the dict branch
of the converter. -/
def interleave : List (UnitValue × UnitValue) → List UnitValue
  | [] => []
  | (k, v) :: rest => k :: v :: interleave rest

theorem convNamed_scalars :
    ∀ kvs : List (UnitValue × UnitValue),
      convNamed (kvs.map (fun p => (p.1, PyElem.scalar p.2))) = .ok (interleave kvs)
  | [] => rfl
  | (k, v) :: rest => by
    simp [convNamed, convNamed_scalars rest, interleave, Except.map]

theorem deinterleave_interleave :
    ∀ kvs : List (UnitValue × UnitValue), deinterleave (interleave kvs) = kvs
  | [] => rfl
  | (k, v) :: rest => by
    simp [interleave, deinterleave, deinterleave_interleave rest]

/-- C1: construct-then-repackage round trip.  For list, tuple and dict sources
of scalars the native collection comes back exactly, order preserved (dict
keys being unique, as in every Python dict); for set and frozenset sources the
repackaged collection has exactly the source's elements (the set
comprehension de-duplicates, order unspecified). -/
theorem C1_repackage_roundtrip (xs : List UnitValue) (kvs : List (UnitValue × UnitValue)) :
    roundTrip (.list (xs.map .scalar)) .list = .ok (.list (xs.map .scalar))
    ∧ roundTrip (.tupl (xs.map .scalar)) .tupl = .ok (.tupl (xs.map .scalar))
    ∧ ((kvs.map Prod.fst).Nodup →
        roundTrip (.dict (kvs.map (fun p => (p.1, PyElem.scalar p.2)))) .dict
          = .ok (.dict (kvs.map (fun p => (p.1, PyElem.scalar p.2)))))
    ∧ (roundTrip (.pset (xs.map .scalar)) .set = .ok (.pset (xs.dedup.map .scalar))
        ∧ ∀ v : UnitValue, v ∈ xs.dedup ↔ v ∈ xs)
    ∧ (roundTrip (.fset (xs.map .scalar)) .fset = .ok (.fset (xs.dedup.map .scalar))
        ∧ ∀ v : UnitValue, v ∈ xs.dedup ↔ v ∈ xs) := by
  refine ⟨?_, ?_, ?_, ⟨?_, fun v => List.mem_dedup⟩, ⟨?_, fun v => List.mem_dedup⟩⟩
  · rw [roundTrip, constructCont]
    rw [baseContainerConverter]
    rw [show containsSubContainerE (.container (.list (xs.map .scalar)))
        = (xs.map PyElem.scalar).any isContainerElem from rfl]
    rw [scalars_no_subcontainer]
    simp [convLinear_scalars, baseContainerTypeConverter, Except.map, repackage, unpack]
  · rw [roundTrip, constructCont]
    rw [baseContainerConverter]
    rw [show containsSubContainerE (.container (.tupl (xs.map .scalar)))
        = (xs.map PyElem.scalar).any isContainerElem from rfl]
    rw [scalars_no_subcontainer]
    simp [convLinear_scalars, baseContainerTypeConverter, Except.map, repackage, unpack]
  · intro _
    rw [roundTrip, constructCont]
    rw [baseContainerConverter]
    rw [show containsSubContainerE
          (.container (.dict (kvs.map (fun p => (p.1, PyElem.scalar p.2)))))
        = ((kvs.map (fun p => (p.1, PyElem.scalar p.2))).any (fun p => isContainerElem p.2))
        from rfl]
    rw [scalarPairs_no_subcontainer]
    simp [convNamed_scalars, baseContainerTypeConverter, Except.map, repackage, unpack,
      deinterleave_interleave]
  · rw [roundTrip, constructCont]
    rw [baseContainerConverter]
    rw [show containsSubContainerE (.container (.pset (xs.map .scalar)))
        = (xs.map PyElem.scalar).any isContainerElem from rfl]
    rw [scalars_no_subcontainer]
    simp [convLinear_scalars, baseContainerTypeConverter, Except.map, repackage, unpack]
  · rw [roundTrip, constructCont]
    rw [baseContainerConverter]
    rw [show containsSubContainerE (.container (.fset (xs.map .scalar)))
        = (xs.map PyElem.scalar).any isContainerElem from rfl]
    rw [scalars_no_subcontainer]
    simp [convLinear_scalars, baseContainerTypeConverter, Except.map, repackage, unpack]

/-- C1 witness: the round trip evaluated at concrete collections, the dict
part's key-uniqueness hypothesis discharged at a two-key dict. -/
theorem C1_repackage_roundtrip_witness :
    roundTrip (.dict [(.vStr "a", PyElem.scalar (.vInt 1)), (.vStr "b", PyElem.scalar (.vInt 2))])
        .dict
      = .ok (.dict [(.vStr "a", PyElem.scalar (.vInt 1)), (.vStr "b", PyElem.scalar (.vInt 2))])
    ∧ roundTrip (.list [PyElem.scalar (.vInt 1), PyElem.scalar (.vInt 2)]) .list
      = .ok (.list [PyElem.scalar (.vInt 1), PyElem.scalar (.vInt 2)]) := by
  have h := C1_repackage_roundtrip [.vInt 1, .vInt 2]
    [(.vStr "a", .vInt 1), (.vStr "b", .vInt 2)]
  exact ⟨h.2.2.1 (by decide), h.1⟩

theorem constructCont_nested (src : PyContainer) (kindArg : Option KindArg)
    (h : containsSubContainer src = true) :
    constructCont (.container src) kindArg = .error .nested := by
  have hconv : baseContainerConverter (.container src) = .error .nested := by
    rw [baseContainerConverter.eq_def]
    rw [show containsSubContainerE (.container src) = containsSubContainer src from rfl, h]
    rfl
  rw [constructCont.eq_def, hconv]

/-- C2: for every container kind argument and every source shape, a source in
which some element (or, for a dict source, some mapped value) is itself a
collection makes construction fail with the nested-container
GroupBaseContainerException, and no container is produced. -/
theorem C2_nested_rejected (kindArg : Option KindArg) (xs : List PyElem)
    (ps : List (UnitValue × PyElem)) (e : PyElem) (q : UnitValue × PyElem) :
    (e ∈ xs → isContainerElem e = true →
      (constructCont (.container (.list xs)) kindArg = .error .nested
       ∧ constructCont (.container (.tupl xs)) kindArg = .error .nested
       ∧ constructCont (.container (.pset xs)) kindArg = .error .nested
       ∧ constructCont (.container (.fset xs)) kindArg = .error .nested))
    ∧ (q ∈ ps → isContainerElem q.2 = true →
        constructCont (.container (.dict ps)) kindArg = .error .nested) := by
  constructor
  · intro he hc
    have hany : xs.any isContainerElem = true := List.any_eq_true.mpr ⟨e, he, hc⟩
    exact ⟨constructCont_nested _ _ hany, constructCont_nested _ _ hany,
      constructCont_nested _ _ hany, constructCont_nested _ _ hany⟩
  · intro hq hc
    have hany : (ps.any (fun p => isContainerElem p.2)) = true :=
      List.any_eq_true.mpr ⟨q, hq, hc⟩
    exact constructCont_nested _ _ hany

/-- C2 witness: a list holding a nested list, and a dict with a nested tuple
value, both rejected with the nested-container error. -/
theorem C2_nested_rejected_witness :
    constructCont (.container (.list [.container (.list [])])) none = .error .nested
    ∧ constructCont
        (.container (.dict [(.vInt 1, PyElem.container (.tupl []))])) none
      = .error .nested := by
  have h := C2_nested_rejected none [.container (.list [])]
    [(.vInt 1, PyElem.container (.tupl []))]
    (.container (.list [])) (.vInt 1, PyElem.container (.tupl []))
  exact ⟨(h.1 (by simp) rfl).1, h.2 (by simp) rfl⟩

/-- C4 counterexample: a list source with the kind argument omitted produces a
container whose kind is tuple, not a list kind inferred from the source
shape. -/
theorem C4_counterexample :
    constructCont (.container (.list [.scalar (.vInt 1), .scalar (.vInt 2)])) none
      = .ok ⟨[.vInt 1, .vInt 2], .tupl⟩
    ∧ CKind.tupl ≠ CKind.list := by
  refine ⟨rfl, ?_⟩
  intro h
  cases h

/-- C4 (amended): when the kind argument is omitted, every successful
construction yields the default kind tuple (field default `tuple`), whatever
the source's native shape. -/
theorem C4_amended_default_kind (src : PyElem) (c : BaseCont)
    (h : constructCont src none = .ok c) : c.type = .tupl := by
  rw [constructCont] at h
  cases hconv : baseContainerConverter src with
  | error e =>
    rw [hconv] at h
    cases h
  | ok items =>
    rw [hconv] at h
    have h2 : (Except.ok (⟨items, CKind.tupl⟩ : BaseCont)
        : Except ContainerError BaseCont) = .ok c := h
    injection h2 with h3
    rw [← h3]

/-- C4 witness: the amended rule applied at a concrete list source. -/
theorem C4_amended_default_kind_witness :
    ∃ c : BaseCont,
      constructCont (.container (.list [.scalar (.vInt 1)])) none = .ok c
        ∧ c.type = .tupl :=
  ⟨⟨[.vInt 1], .tupl⟩, rfl,
    C4_amended_default_kind (.container (.list [.scalar (.vInt 1)]))
      ⟨[.vInt 1], .tupl⟩ rfl⟩

/-- C5 counterexample: wrapping the list [1, 2, 3] in a BaseValue raises no
TypeError — the converter silently takes the first element and a value is
produced. -/
theorem C5_counterexample :
    constructBaseValue (.container (.list
      [.scalar (.vInt 1), .scalar (.vInt 2), .scalar (.vInt 3)]))
      = .ok (.scalar (.vInt 1)) := rfl

/-- C5 (amended): value construction from a nonempty collection does not
raise: the converter extracts the first element (list/tuple), an arbitrary
popped element (set/frozenset), or the first mapped value (dict), and a value
wrapping it is produced; only empty list/tuple/dict raise IndexError and empty
set/frozenset KeyError. -/
theorem C5_amended_first_element (x : PyElem) (xs : List PyElem) (k : UnitValue)
    (v : PyElem) (ps : List (UnitValue × PyElem)) :
    constructBaseValue (.container (.list (x :: xs))) = .ok x
    ∧ constructBaseValue (.container (.tupl (x :: xs))) = .ok x
    ∧ constructBaseValue (.container (.pset (x :: xs))) = .ok x
    ∧ constructBaseValue (.container (.fset (x :: xs))) = .ok x
    ∧ constructBaseValue (.container (.dict ((k, v) :: ps))) = .ok v
    ∧ constructBaseValue (.container (.list [])) = .error .indexError
    ∧ constructBaseValue (.container (.tupl [])) = .error .indexError
    ∧ constructBaseValue (.container (.pset [])) = .error .keyError
    ∧ constructBaseValue (.container (.fset [])) = .error .keyError
    ∧ constructBaseValue (.container (.dict [])) = .error .indexError :=
  ⟨rfl, rfl, rfl, rfl, rfl, rfl, rfl, rfl, rfl, rfl⟩

/-- C10: constructing a BaseContainer from a bare primitive scalar (or an
already wrapped BaseValue) raises the GroupBaseContainerException "Expected a
container, but received a non-container", for every kind argument, and no
container is produced. -/
theorem C10_non_collection_rejected (v : UnitValue) (kindArg : Option KindArg) :
    constructCont (.scalar v) kindArg = .error .notAContainer
    ∧ constructCont (.value v) kindArg = .error .notAContainer :=
  ⟨rfl, rfl⟩

/-- C3: `content_hash` is the root of the Merkle tree over the ordered
sequence of the items' content hashes followed by one trailing hash of the
kind tag, and the root is defined (not the empty sentinel) for every
constructed container, determined by items, their order, and the declared
kind. -/
theorem C3_container_content_hash (c : BaseCont) :
    containerContentHash c
      = merkleRoot (c.items.map valueContentHash ++ [kindTagHash c.type])
    ∧ (containerContentHash c).isSome = true := by
  have he := containerHashedItems_eq c
  constructor
  · rw [containerContentHash, containerHashTree, MerkleTreeApp.root, he]
  · rw [containerContentHash, containerHashTree, MerkleTreeApp.root, he]
    exact merkleRoot_isSome _ (by simp)

/-- C7: membership verification is leaf presence only: it returns true exactly
when the candidate hash equals one of the tree's original leaves — an item's
content hash or the kind-tag hash — and involves no authentication path
against the root. -/
theorem C7_verify_is_leaf_presence (c : BaseCont) (h : Hash) :
    verifyMembership c h = true
      ↔ (h ∈ c.items.map valueContentHash ∨ h = kindTagHash c.type) := by
  rw [verifyMembership, MerkleTreeApp.verify]
  rw [show (containerHashTree c).leaves = containerHashedItems c from rfl]
  rw [containerHashedItems_eq]
  rw [List.elem_iff]
  simp [List.mem_append]

/-- C6: the Merkle tree of crypto.py evaluated at the claim's inputs.  The
empty tree constructs and its root is the None sentinel, but building a tree
from one leaf (and likewise from two) raises TypeError, because `build`
subscripts the `Leaves` object (`level[0]`, `level[i]`) and `Leaves` defines
no `__getitem__` — instead of returning the self-paired hash of the single
leaf. -/
theorem C6_single_leaf_build_crashes :
    mkMerkleTreePy [Hash.leaf "a"] = .error .typeErrorNotSubscriptable
    ∧ mkMerkleTreePy [Hash.leaf "a", Hash.leaf "b"] = .error .typeErrorNotSubscriptable
    ∧ (mkMerkleTreePy []).map rootPy = .ok (.ok none)
    ∧ hashItems (Hash.leaf "a") none = Hash.node (Hash.leaf "a") (Hash.leaf "a") :=
  ⟨rfl, rfl, rfl, rfl⟩

deriving instance DecidableEq for Except

/-- C8 counterexample: looking up "nteg" — declared by no kind but a substring
of the alias "Integer" — raises the substring GroupBaseTypeException from
`_contains`, not the does-not-exist (UnknownAlias) error of `_get_type`. -/
theorem C8_counterexample :
    resolveAlias "nteg" = .error (.substringOf "nteg" "Integer")
    ∧ resolveAlias "nteg" ≠ .error (.doesNotExist "nteg") := by
  refine ⟨by decide, by decide⟩

/-- C8 (amended): every declared alias resolves by exact equality to its
declaring kind; an unknown string that is a substring of no declared alias
fails with the does-not-exist (UnknownAlias) exception; but an unknown string
that is a substring of some declared alias raises the substring-ambiguity
GroupBaseTypeException instead. -/
theorem C8_alias_resolution :
    (∀ t ∈ allBaseTypes, ∀ a ∈ btAliases t, resolveAlias a = .ok t)
    ∧ (∀ q : String,
        (∀ t ∈ allBaseTypes, (btAliases t).contains q = false) →
        (∀ t ∈ allBaseTypes, ∀ a ∈ btAliases t, strContains a q = false) →
        resolveAlias q = .error (.doesNotExist q))
    ∧ (∀ q : String,
        (∀ t ∈ allBaseTypes, (btAliases t).contains q = false) →
        (∃ t ∈ allBaseTypes, ∃ a ∈ btAliases t, strContains a q = true) →
        ∃ a : String, resolveAlias q = .error (.substringOf q a)) := by
  refine ⟨by decide, ?_, ?_⟩
  · intro q h1 h2
    exact getTypeAux_doesNotExist q allBaseTypes h1 h2
  · intro q h1 h2
    exact getTypeAux_substring q allBaseTypes h1 h2

/-- C8 witness: the amended rule applied at "str" (a declared alias), at
"notarealtype" (a substring of no alias, UnknownAlias) and at "teger" (an
undeclared substring of "Integer", the substring exception). -/
theorem C8_alias_resolution_witness :
    resolveAlias "str" = .ok .string
    ∧ resolveAlias "notarealtype" = .error (.doesNotExist "notarealtype")
    ∧ ∃ a : String, resolveAlias "teger" = .error (.substringOf "teger" a) := by
  refine ⟨C8_alias_resolution.1 .string (by decide) "str" (by decide),
    C8_alias_resolution.2.1 "notarealtype" (by decide) (by decide),
    C8_alias_resolution.2.2 "teger" (by decide) ?_⟩
  exact ⟨.integer, by decide, "Integer", by decide, by decide⟩

/-- C9: schema verification never raises — it returns the `(ok, message)`
pair in which `ok` is true exactly when every fully unpacked leaf token of
every field is valid, and the message is the concatenation of one sentence per
invalid leaf token (so every invalid token of every field is reported, with no
short-circuit on the first bad field); when every leaf token is valid the
result is `(true, "")`. -/
theorem C9_schema_verification (sch : List (String × SVal)) :
    verifySchema sch
      = ((schemaTokens sch).all isBaseTypeToken,
         joinMsgs (((schemaTokens sch).filter (fun t => !isBaseTypeToken t)).map
           invalidTokenMsg))
    ∧ ((schemaTokens sch).all isBaseTypeToken = true → verifySchema sch = (true, "")) := by
  have h := verifyBaseTypes_eq (schemaTokens sch)
  refine ⟨h, fun hall => ?_⟩
  have hfil : (schemaTokens sch).filter (fun t => !isBaseTypeToken t) = [] := by
    rw [List.filter_eq_nil_iff]
    intro a ha
    have := List.all_eq_true.mp hall a ha
    simp [this]
  have h2 : verifySchema sch
      = ((schemaTokens sch).all isBaseTypeToken,
         joinMsgs (((schemaTokens sch).filter (fun t => !isBaseTypeToken t)).map
           invalidTokenMsg)) := h
  rw [h2, hall, hfil]
  rfl

/-- C9 witness: the flat schema requiring a string and a number verifies as
`(true, "")` through the theorem, the all-valid hypothesis discharged by
computing the unpacked tokens. -/
theorem C9_schema_verification_witness :
    verifySchema [("a", SVal.tok "string"), ("b", SVal.tok "number")] = (true, "") := by
  have e1 : unpackStrings "string" = "string" := by
    rw [unpackStrings]
    exact dif_pos (by decide)
  have e2 : unpackStrings "number" = "number" := by
    rw [unpackStrings]
    exact dif_pos (by decide)
  have f1 : fullyUnpackTok "string" = ["string"] := by
    rw [fullyUnpackTok, e1]
    rw [dif_neg (by decide : ¬ (strContains "string" "," = true))]
  have f2 : fullyUnpackTok "number" = ["number"] := by
    rw [fullyUnpackTok, e2]
    rw [dif_neg (by decide : ¬ (strContains "number" "," = true))]
  have e4 : schemaTokens [("a", SVal.tok "string"), ("b", SVal.tok "number")]
      = ["string", "number"] := by
    rw [schemaTokens]
    rw [show getKeyTypesFromSchema [("a", SVal.tok "string"), ("b", SVal.tok "number")]
        = ["string", "number"] from by
      rw [getKeyTypesFromSchema]
      rw [iterFields, iterFields, iterFields]
      decide]
    simp [fullyUnpackTypes, f1, f2]
  exact (C9_schema_verification [("a", SVal.tok "string"), ("b", SVal.tok "number")]).2
    (by rw [e4]; decide)
